import Mathlib

/-!
Shallow embedding of the pantry-bot inventory store and its scan/review
workflows (sources: `bot/app/services/opensearch_client.py`,
`bot/app/handlers/scan.py`, `bot/app/handlers/review.py`,
`bot/app/handlers/pantry.py`, `bot/app/services/product_lookup.py`).

The OpenSearch indices are modelled as in-memory lists of documents held in
a `Store` record.  Document ids are naturals drawn from a fresh-id counter,
and timestamps (`added_at`, `created_at`, `fetched_at`) are naturals drawn
from a logical clock that advances on every indexing operation (the code
stamps `datetime.now()` on every insert).  A search with
`sort: added_at asc/desc, size: n` is modelled as filter, insertion sort on
the timestamp, then `take n`; OpenSearch `collapse` on `barcode` is
modelled as first-occurrence deduplication after sorting.
-/

namespace Pantry

/-- One document of the `pantry_items` index. -/
structure Item where
  id : Nat
  owner_id : Int
  barcode : String
  product_name : String
  category : String
  quantity : Int
  added_at : Nat
  expiry_date : Option String
  product_info : Option String
  verified : Bool
deriving DecidableEq, Repr

/-- One document of the `pantry_categories` index. -/
structure Category where
  owner_id : Int
  name : String
  created_at : Nat
deriving DecidableEq, Repr

/-- One document of the `pantry_product_cache` index. -/
structure CacheEntry where
  id : Nat
  barcode : String
  product_name : String
  brand : String
  image_url : String
  raw : Option String
  fetched_at : Nat
deriving DecidableEq, Repr

/-- The persistent state: the three indices plus the id counter and the
logical clock used to stamp documents. -/
structure Store where
  items : List Item
  categories : List Category
  cache : List CacheEntry
  nextId : Nat
  clock : Nat
deriving DecidableEq, Repr

/-- Sort key for `sort: [added_at asc]`. -/
def itemLeAsc (a b : Item) : Prop := a.added_at ≤ b.added_at

/-- Sort key for `sort: [added_at desc]`. -/
def itemLeDesc (a b : Item) : Prop := b.added_at ≤ a.added_at

/-- Sort key for `sort: [created_at asc]` on categories. -/
def catLeAsc (a b : Category) : Prop := a.created_at ≤ b.created_at

instance : DecidableRel itemLeAsc := fun a b => Nat.decLe a.added_at b.added_at
instance : DecidableRel itemLeDesc := fun a b => Nat.decLe b.added_at a.added_at
instance : DecidableRel catLeAsc := fun a b => Nat.decLe a.created_at b.created_at

instance : IsTotal Item itemLeAsc := ⟨fun a b => Nat.le_total a.added_at b.added_at⟩
instance : IsTrans Item itemLeAsc := ⟨fun _ _ _ h h' => Nat.le_trans h h'⟩
instance : IsTotal Item itemLeDesc := ⟨fun a b => (Nat.le_total b.added_at a.added_at).symm.symm⟩
instance : IsTrans Item itemLeDesc := ⟨fun _ _ _ h h' => Nat.le_trans h' h⟩
instance : IsTotal Category catLeAsc := ⟨fun a b => Nat.le_total a.created_at b.created_at⟩
instance : IsTrans Category catLeAsc := ⟨fun _ _ _ h h' => Nat.le_trans h h'⟩

/-- `OpenSearchClient.add_item`: build the document, index it, return its id. -/
def add_item (st : Store) (owner_id : Int) (barcode product_name category : String)
    (quantity : Int) (expiry_date : Option String) (product_info : Option String)
    (verified : Bool) : Store × Nat :=
  let doc : Item :=
    { id := st.nextId, owner_id := owner_id, barcode := barcode,
      product_name := product_name, category := category, quantity := quantity,
      added_at := st.clock, expiry_date := expiry_date,
      product_info := product_info, verified := verified }
  ({ st with items := st.items ++ [doc], nextId := st.nextId + 1, clock := st.clock + 1 },
   st.nextId)

/-- `OpenSearchClient.get_item`: GET by document id, `none` when absent. -/
def get_item (st : Store) (item_id : Nat) : Option Item :=
  st.items.find? (fun it => it.id == item_id)

/-- The `bool.must` filter of `find_items_by_barcode`. -/
def barcodeMatch (owner_id : Int) (barcode : String) (category : Option String)
    (it : Item) : Bool :=
  it.owner_id == owner_id && it.barcode == barcode &&
    (match category with
     | some c => it.category == c
     | none => true)

/-- `OpenSearchClient.find_items_by_barcode`: term filters, sorted
`added_at` ascending, `size: 50`. -/
def find_items_by_barcode (st : Store) (owner_id : Int) (barcode : String)
    (category : Option String) : List Item :=
  ((st.items.filter (barcodeMatch owner_id barcode category)).insertionSort itemLeAsc).take 50

/-- A partial-update body (`body={"doc": fields}`) as used by the bot: the
only fields it ever patches are `product_name`, `barcode` and `verified`. -/
structure ItemPatch where
  product_name : Option String
  barcode : Option String
  verified : Option Bool
deriving DecidableEq, Repr

/-- Merge a partial-update body into a stored document. -/
def applyPatch (p : ItemPatch) (it : Item) : Item :=
  { it with
    product_name := p.product_name.getD it.product_name
    barcode := p.barcode.getD it.barcode
    verified := p.verified.getD it.verified }

/-- `OpenSearchClient.update_item`: partial field merge, `false` when the id
does not exist. -/
def update_item (st : Store) (item_id : Nat) (p : ItemPatch) : Bool × Store :=
  if st.items.any (fun it => it.id == item_id) then
    (true,
     { st with items := st.items.map (fun it => if it.id == item_id then applyPatch p it else it) })
  else
    (false, st)

/-- `OpenSearchClient.delete_item`: delete only if the document exists and
belongs to `owner_id`; otherwise a `false` no-op. -/
def delete_item (st : Store) (item_id : Nat) (owner_id : Int) : Bool × Store :=
  match get_item st item_id with
  | some it =>
      if it.owner_id == owner_id then
        (true, { st with items := st.items.filter (fun x => x.id != item_id) })
      else
        (false, st)
  | none => (false, st)

/-- `OpenSearchClient.delete_items_by_barcode`: delete up to `limit` of the
oldest matches by id, returning the count deleted. -/
def delete_items_by_barcode (st : Store) (owner_id : Int) (barcode : String)
    (category : Option String) (limit : Nat) : Nat × Store :=
  let items := find_items_by_barcode st owner_id barcode category
  (items.take limit).foldl
    (fun acc it =>
      (acc.1 + 1, { acc.2 with items := acc.2.items.filter (fun x => x.id != it.id) }))
    (0, st)

/-- `OpenSearchClient.get_categories`: term filter on owner, sorted
`created_at` ascending, `size: 50`, projected to names. -/
def get_categories (st : Store) (owner_id : Int) : List String :=
  (((st.categories.filter (fun c => c.owner_id == owner_id)).insertionSort catLeAsc).take 50).map
    (fun c => c.name)

/-- `OpenSearchClient.add_category`: `False` when the name is already among
the owner's categories, else index a new category document. -/
def add_category (st : Store) (owner_id : Int) (name : String) : Bool × Store :=
  let existing := get_categories st owner_id
  if existing.contains name then
    (false, st)
  else
    (true,
     { st with
        categories :=
          st.categories ++ [{ owner_id := owner_id, name := name, created_at := st.clock }],
        clock := st.clock + 1 })

/-- `OpenSearchClient.get_cached_product`: term query on barcode, `size: 1`. -/
def get_cached_product (st : Store) (barcode : String) : Option CacheEntry :=
  (st.cache.filter (fun e => e.barcode == barcode)).head?

/-- `OpenSearchClient.cache_product`: upsert keyed by barcode — overwrite the
existing document in place (same id) when present, else index a new one. -/
def cache_product (st : Store) (barcode product_name brand image_url : String)
    (raw : Option String) : Nat × Store :=
  let doc : Nat → CacheEntry := fun i =>
    { id := i, barcode := barcode, product_name := product_name, brand := brand,
      image_url := image_url, raw := raw, fetched_at := st.clock }
  match get_cached_product st barcode with
  | some e =>
      (e.id,
       { st with
          cache := st.cache.map (fun c => if c.id == e.id then doc e.id else c),
          clock := st.clock + 1 })
  | none =>
      (st.nextId,
       { st with
          cache := st.cache ++ [doc st.nextId]
          nextId := st.nextId + 1
          clock := st.clock + 1 })

/-- Fuel-indexed first-occurrence deduplication on `barcode`; the fuel is
only a structural-recursion device and is always supplied as the list
length, which fully processes the list. -/
def collapseFuel : Nat → List Item → List Item
  | 0, _ => []
  | _ + 1, [] => []
  | n + 1, x :: xs => x :: collapseFuel n (xs.filter (fun y => y.barcode != x.barcode))

/-- OpenSearch `collapse` on the `barcode` field: keep the first hit of each
distinct barcode, in result order. -/
def collapseByBarcode (l : List Item) : List Item := collapseFuel l.length l

/-- `OpenSearchClient.get_unverified_items`: owner's unverified items sorted
`added_at` descending, collapsed on barcode, `size` hits. -/
def get_unverified_items (st : Store) (owner_id : Int) (size : Nat) : List Item :=
  let filtered := st.items.filter (fun it => it.owner_id == owner_id && it.verified == false)
  (collapseByBarcode (filtered.insertionSort itemLeDesc)).take size

/-- The update body built by `verify_items_by_barcode`: always sets
`verified`, sets `product_name` only when `new_name` is truthy. -/
def verifyFields (new_name : Option String) : ItemPatch :=
  { product_name :=
      match new_name with
      | some s => if s == "" then none else some s
      | none => none,
    barcode := none,
    verified := some true }

/-- `OpenSearchClient.verify_items_by_barcode`: patch every found match
(all categories), counting the documents touched. -/
def verify_items_by_barcode (st : Store) (owner_id : Int) (barcode : String)
    (new_name : Option String) : Nat × Store :=
  let items := find_items_by_barcode st owner_id barcode none
  items.foldl
    (fun acc it => (acc.1 + 1, (update_item acc.2 it.id (verifyFields new_name)).2))
    (0, st)

/-- One scanned entry of a batch; `code` is `scan.get("code", "")`. -/
structure Scan where
  code : String
deriving DecidableEq, Repr

/-- A successful `lookup_barcode` result (`product_lookup.py`): display name,
brand, image url and the raw payload (kept opaque). -/
structure LookupResult where
  product_name : String
  brand : String
  image_url : String
  raw : Option String
deriving DecidableEq, Repr

/-- One loop iteration of the add branch of `_process_scan_batch`
(`scan.py`): skip blanks, consult the cache, else the external catalog
(modelled by the `lookup` parameter), insert one item, emit a line. -/
def process_add_one (lookup : String → Option LookupResult) (st : Store) (owner : Int)
    (category : String) (scan : Scan) : Store × Option String :=
  let barcode := scan.code
  if barcode == "" then
    (st, none)
  else
    match get_cached_product st barcode with
    | some cached =>
        let product_name := cached.product_name
        let st' := (add_item st owner barcode product_name category 1 none none true).1
        (st', some ("✅ *" ++ product_name ++ "*"))
    | none =>
        match lookup barcode with
        | some result =>
            let product_name := result.product_name
            let st1 :=
              (cache_product st barcode result.product_name result.brand result.image_url
                result.raw).2
            let st2 := (add_item st1 owner barcode product_name category 1 none result.raw
                false).1
            (st2, some ("❓ *" ++ product_name ++ "*"))
        | none =>
            let product_name := "Unknown (" ++ barcode ++ ")"
            let st' := (add_item st owner barcode product_name category 1 none none false).1
            (st', some ("❓ *" ++ product_name ++ "*"))

/-- One loop iteration of the remove branch of `_process_scan_batch`:
delete at most one matching item (oldest first), report hit or miss. -/
def process_remove_one (st : Store) (owner : Int) (category : String) (scan : Scan) :
    Store × String :=
  let barcode := scan.code
  let r := delete_items_by_barcode st owner barcode (some category) 1
  if r.1 != 0 then
    (r.2, "🗑️ Removed: `" ++ barcode ++ "`")
  else
    (r.2, "❌ Not found: `" ++ barcode ++ "`")

/-- The batch loop of `_process_scan_batch` once the owner is resolved:
fold the per-scan step over the batch, accumulating result lines. -/
def run_batch (lookup : String → Option LookupResult) (owner : Int) (st : Store)
    (scans : List Scan) (mode : String) (category : String) : Store × List String :=
  if mode == "remove" then
    scans.foldl
      (fun acc s =>
        let r := process_remove_one acc.1 owner category s
        (r.1, acc.2 ++ [r.2]))
      (st, [])
  else
    scans.foldl
      (fun acc s =>
        let r := process_add_one lookup acc.1 owner category s
        (r.1, acc.2 ++ r.2.toList))
      (st, [])

/-- The per-user session scratch storage (`context.user_data`) as used by
the scan flow: the pending batch, its mode, the optional deep-link target
chat, and the transient owner override. `none` models an absent key. -/
structure Session where
  scan_scans : Option (List Scan)
  scan_mode : Option String
  scan_target_chat : Option Int
  override_owner : Option Int
deriving DecidableEq, Repr

/-- Owner resolution at the top of `_process_scan_batch`:
`context.user_data.get("_override_owner") or _owner_id(update)` — the
override wins when present and truthy (non-zero), else the acting user's
own owner id. -/
def resolved_owner (sess : Session) (own_id : Int) : Int :=
  match sess.override_owner with
  | some v => if v != 0 then v else own_id
  | none => own_id

/-- `_process_scan_batch` as invoked with a session: resolve the owner from
the session, then run the batch. -/
def process_scan_batch (lookup : String → Option LookupResult) (sess : Session)
    (own_id : Int) (st : Store) (scans : List Scan) (mode : String) (category : String) :
    Store × List String :=
  run_batch lookup (resolved_owner sess own_id) st scans mode category

/-- Outcome of one `webapp_select_category` invocation: the user cancelled,
the batch raised mid-processing, or it completed with a store and lines. -/
inductive Outcome where
  | cancelled : Outcome
  | raised : Outcome
  | ok : Store → List String → Outcome
deriving DecidableEq, Repr

/-- `webapp_select_category` (`scan.py`): pop the pending batch, set the
owner override when a deep-link target chat is present (and truthy), run
the batch, and pop the override in a `finally` block — also on the path
where processing raises (modelled by the `raises` flag). -/
def webapp_select_category (lookup : String → Option LookupResult) (raises : Bool)
    (sess : Session) (own_id : Int) (st : Store) (category : String) :
    Session × Outcome :=
  if category == "__cancel__" then
    ({ sess with scan_scans := none, scan_mode := none }, Outcome.cancelled)
  else
    let scans := sess.scan_scans.getD []
    let mode := sess.scan_mode.getD "add"
    let group_chat_id := sess.scan_target_chat
    let sess1 : Session :=
      { sess with scan_scans := none, scan_mode := none, scan_target_chat := none }
    let sess2 : Session :=
      match group_chat_id with
      | some g => if g != 0 then { sess1 with override_owner := some g } else sess1
      | none => sess1
    let outcome :=
      if raises then
        Outcome.raised
      else
        let r := process_scan_batch lookup sess2 own_id st scans mode category
        Outcome.ok r.1 r.2
    ({ sess2 with override_owner := none }, outcome)

/-- The update body built per item by `review_received_barcode`: always
re-targets the barcode; sets `product_name` only when the new barcode has a
cache hit with a truthy name. -/
def fixcodeFields (new_barcode : String) (new_name : Option String) : ItemPatch :=
  { product_name :=
      match new_name with
      | some s => if s == "" then none else some s
      | none => none,
    barcode := some new_barcode,
    verified := none }

/-- Core of `review_received_barcode` (`review.py`): given the stripped new
barcode and the popped old barcode, re-target every item found under the
old barcode, adopting the cached product name of the new barcode when
present. Returns the count of items updated. -/
def review_received_barcode (st : Store) (owner : Int) (old_barcode new_barcode : String) :
    Nat × Store :=
  if new_barcode == "" || old_barcode == "" then
    (0, st)
  else
    let items := find_items_by_barcode st owner old_barcode none
    if items.isEmpty then
      (0, st)
    else
      let cached := get_cached_product st new_barcode
      let new_name := cached.map (fun c => c.product_name)
      items.foldl
        (fun acc it =>
          (acc.1 + 1, (update_item acc.2 it.id (fixcodeFields new_barcode new_name)).2))
        (0, st)

/-- Folding `update_item` over a list of ids with one fixed patch. -/
def apply_updates (st : Store) (ids : List Nat) (p : ItemPatch) : Store :=
  ids.foldl (fun s i => (update_item s i p).2) st

@[simp]
theorem applyPatch_id (p : ItemPatch) (it : Item) : (applyPatch p it).id = it.id := rfl

theorem applyPatch_idem (p : ItemPatch) (it : Item) :
    applyPatch p (applyPatch p it) = applyPatch p it := by
  simp only [applyPatch]
  cases p.product_name <;> cases p.barcode <;> cases p.verified <;> simp

theorem update_item_items (st : Store) (i : Nat) (p : ItemPatch) :
    (update_item st i p).2.items =
      st.items.map (fun it => if it.id == i then applyPatch p it else it) := by
  unfold update_item
  split
  · rfl
  · next h =>
    have h' : ∀ it ∈ st.items, (it.id == i) = false := by
      intro it hmem
      by_contra hc
      exact h (List.any_eq_true.mpr ⟨it, hmem, by simpa using hc⟩)
    have hmap : ∀ it ∈ st.items, (if it.id == i then applyPatch p it else it) = it := by
      intro it hmem
      simp [h' it hmem]
    simpa using (List.map_congr_left hmap).symm

theorem apply_updates_items (p : ItemPatch) :
    ∀ (ids : List Nat) (st : Store),
      (apply_updates st ids p).items =
        st.items.map
          (fun it => if ids.any (fun i => it.id == i) then applyPatch p it else it)
  | [], st => by simp [apply_updates]
  | i :: ids, st => by
      have ih := apply_updates_items p ids (update_item st i p).2
      simp only [apply_updates, List.foldl_cons] at ih ⊢
      rw [ih, update_item_items, List.map_map]
      have hfun :
          ((fun it => if ids.any (fun j => it.id == j) then applyPatch p it else it) ∘
              (fun it => if it.id == i then applyPatch p it else it)) =
            (fun it => if (i :: ids).any (fun j => it.id == j) then applyPatch p it else it) := by
        funext it
        by_cases hid : it.id == i
        · simp only [Function.comp_apply, hid, if_true, List.any_cons, applyPatch_id,
            Bool.true_or, applyPatch_idem]
          split <;> rfl
        · simp only [Function.comp_apply, hid, Bool.false_eq_true, if_false, List.any_cons,
            Bool.false_or]
      rw [hfun]

theorem update_item_cache (st : Store) (i : Nat) (p : ItemPatch) :
    (update_item st i p).2.cache = st.cache := by
  unfold update_item; split <;> rfl

theorem apply_updates_cache (p : ItemPatch) :
    ∀ (ids : List Nat) (st : Store), (apply_updates st ids p).cache = st.cache
  | [], _ => rfl
  | i :: ids, st => by
      simpa [apply_updates, List.foldl_cons, update_item_cache]
        using apply_updates_cache p ids (update_item st i p).2

/-- A counting fold over items whose state effect is `apply_updates`. -/
theorem count_update_fold (p : ItemPatch) :
    ∀ (its : List Item) (k : Nat) (st : Store),
      its.foldl (fun acc it => (acc.1 + 1, (update_item acc.2 it.id p).2)) (k, st) =
        (k + its.length, apply_updates st (its.map (fun it => it.id)) p)
  | [], k, st => by simp [apply_updates]
  | it :: its, k, st => by
      have ih := count_update_fold p its (k + 1) (update_item st it.id p).2
      simp only [List.foldl_cons, List.map_cons, apply_updates, List.length_cons] at ih ⊢
      rw [ih]
      have hk : k + 1 + its.length = k + (its.length + 1) := by omega
      rw [hk]

/-- The deletion fold of `delete_items_by_barcode`, characterised. -/
theorem delete_fold :
    ∀ (ds : List Item) (k : Nat) (st : Store),
      ds.foldl
        (fun acc it =>
          (acc.1 + 1, { acc.2 with items := acc.2.items.filter (fun x => x.id != it.id) }))
        (k, st) =
        (k + ds.length,
         { st with items := st.items.filter (fun x => ds.all (fun d => x.id != d.id)) })
  | [], k, st => by simp
  | d :: ds, k, st => by
      have ih := delete_fold ds (k + 1) { st with items := st.items.filter (fun x => x.id != d.id) }
      simp only [List.foldl_cons, List.length_cons] at ih ⊢
      rw [ih, List.filter_filter]
      have hk : k + 1 + ds.length = k + (ds.length + 1) := by omega
      have hf : ∀ x ∈ st.items,
          ((fun x => ds.all (fun d' => x.id != d'.id)) x && (fun x => x.id != d.id) x) =
            (fun x => (d :: ds).all (fun d' => x.id != d'.id)) x := by
        intro x _
        simp only [List.all_cons]
        exact Bool.and_comm _ _
      rw [hk, List.filter_congr hf]

theorem collapseFuel_sublist : ∀ (n : Nat) (l : List Item), List.Sublist (collapseFuel n l) l
  | 0, l => by simp [collapseFuel]
  | _ + 1, [] => List.Sublist.refl []
  | n + 1, x :: xs =>
      List.Sublist.cons₂ x
        ((collapseFuel_sublist n (xs.filter (fun y => y.barcode != x.barcode))).trans
          (List.filter_sublist xs))

theorem collapse_sublist (l : List Item) : List.Sublist (collapseByBarcode l) l :=
  collapseFuel_sublist l.length l

theorem collapseFuel_pairwise_barcode :
    ∀ (n : Nat) (l : List Item),
      (collapseFuel n l).Pairwise (fun a b => a.barcode ≠ b.barcode)
  | 0, _ => by simp [collapseFuel]
  | _ + 1, [] => by simp [collapseFuel]
  | n + 1, x :: xs => by
      rw [collapseFuel]
      refine List.Pairwise.cons ?_ (collapseFuel_pairwise_barcode n _)
      intro y hy
      have hy' := (collapseFuel_sublist n _).subset hy
      have hb : y.barcode ≠ x.barcode := by
        simpa [bne_iff_ne] using List.of_mem_filter hy'
      exact hb.symm

theorem collapse_pairwise_barcode (l : List Item) :
    (collapseByBarcode l).Pairwise (fun a b => a.barcode ≠ b.barcode) :=
  collapseFuel_pairwise_barcode l.length l

theorem collapseFuel_first_wins :
    ∀ (n : Nat) (l : List Item), l.Pairwise itemLeDesc →
      ∀ x, x ∈ collapseFuel n l →
        ∀ y, y ∈ l → y.barcode = x.barcode → y.added_at ≤ x.added_at
  | 0, l, _, x, hx => by simp [collapseFuel] at hx
  | _ + 1, [], _, x, hx => by simp [collapseFuel] at hx
  | n + 1, a :: t, h, x, hx => by
      rw [collapseFuel] at hx
      rw [List.pairwise_cons] at h
      rcases List.mem_cons.mp hx with rfl | hx'
      · intro y hy _
        rcases List.mem_cons.mp hy with rfl | hyt
        · exact Nat.le_refl _
        · exact h.1 y hyt
      · have hxf := (collapseFuel_sublist n _).subset hx'
        have hxne : x.barcode ≠ a.barcode := by
          simpa [bne_iff_ne] using List.of_mem_filter hxf
        intro y hy hbc
        rcases List.mem_cons.mp hy with rfl | hyt
        · exact absurd hbc.symm hxne
        · have hyf : y ∈ t.filter (fun z => z.barcode != a.barcode) := by
            refine List.mem_filter.mpr ⟨hyt, ?_⟩
            simp only [bne_iff_ne, ne_eq, decide_not]
            simpa using hbc ▸ hxne
          exact collapseFuel_first_wins n _ (h.2.filter _) x hx' y hyf hbc

/-- On a descending-sorted list, collapsing keeps the most recent item of
each barcode group. -/
theorem collapse_first_wins (l : List Item) (h : l.Pairwise itemLeDesc) :
    ∀ x, x ∈ collapseByBarcode l →
      ∀ y, y ∈ l → y.barcode = x.barcode → y.added_at ≤ x.added_at :=
  collapseFuel_first_wins l.length l h

/-- C5: for an item belonging to owner `it.owner_id` and any other owner
`o2`, `delete_item` under `o2` returns `false`, performs no mutation, the
item remains retrievable, and the result is the very same falsy value
produced for a nonexistent id (never a distinct error). -/
theorem delete_item_cross_tenant (st : Store) (i : Nat) (it : Item) (o2 : Int)
    (hget : get_item st i = some it) (hne : o2 ≠ it.owner_id) :
    delete_item st i o2 = (false, st) ∧
      get_item (delete_item st i o2).2 i = some it ∧
      ∀ j, get_item st j = none → delete_item st j o2 = (false, st) := by
  have hbeq : (it.owner_id == o2) = false := by
    simp only [beq_eq_false_iff_ne, ne_eq]
    exact fun h => hne h.symm
  have hdel : delete_item st i o2 = (false, st) := by
    simp [delete_item, hget, hbeq]
  refine ⟨hdel, ?_, ?_⟩
  · rw [hdel]
    exact hget
  · intro j hj
    simp only [delete_item, hj]

def w5it : Item :=
  { id := 0, owner_id := 1, barcode := "b", product_name := "n", category := "Pantry",
    quantity := 1, added_at := 0, expiry_date := none, product_info := none,
    verified := false }

def w5st : Store := { items := [w5it], categories := [], cache := [], nextId := 1, clock := 1 }

/-- C5 witness: the cross-tenant no-op at a concrete one-item store. -/
theorem delete_item_cross_tenant_witness :
    delete_item w5st 0 2 = (false, w5st) ∧ get_item (delete_item w5st 0 2).2 0 = some w5it := by
  have h := delete_item_cross_tenant w5st 0 w5it 2 (by decide) (by decide)
  exact ⟨h.1, h.2.1⟩

/-- C6 (amended): when the owner has at most 49 categories and none of
them is named `X`, `add_category` twice returns `true` then `false`; the
existence check is a case-sensitive exact name match over the owner's
categories (of which the store reads the 50 oldest). -/
theorem add_category_twice (st : Store) (o : Int) (X : String)
    (hcount : (st.categories.filter (fun c => c.owner_id == o)).length ≤ 49)
    (hfresh : ∀ c ∈ st.categories.filter (fun c => c.owner_id == o), c.name ≠ X) :
    (add_category st o X).1 = true ∧
      (add_category (add_category st o X).2 o X).1 = false := by
  have hsortedlen1 :
      ((st.categories.filter (fun c => c.owner_id == o)).insertionSort catLeAsc).length ≤ 49 := by
    rw [List.length_insertionSort]
    exact hcount
  have hget1 : get_categories st o =
      ((st.categories.filter (fun c => c.owner_id == o)).insertionSort catLeAsc).map
        (fun c => c.name) := by
    unfold get_categories
    rw [List.take_of_length_le (Nat.le_trans hsortedlen1 (by omega))]
  have hnotmem : X ∉ get_categories st o := by
    intro hc
    rw [hget1] at hc
    rcases List.mem_map.mp hc with ⟨c, hcmem, hcname⟩
    exact hfresh c ((List.mem_insertionSort catLeAsc).mp hcmem) hcname
  have hfirst : (add_category st o X).1 = true := by
    unfold add_category
    simp [hnotmem]
  constructor
  · exact hfirst
  · -- after the first insert the new category is inside the 50-window,
    -- so the second membership test finds it
    have hst1 : (add_category st o X).2 =
        { st with
            categories := st.categories ++
              [{ owner_id := o, name := X, created_at := st.clock }],
            clock := st.clock + 1 } := by
      unfold add_category
      simp [hnotmem]
    set newCat : Category := { owner_id := o, name := X, created_at := st.clock } with hnew
    have hfilter1 :
        ((add_category st o X).2.categories.filter (fun c => c.owner_id == o)) =
          (st.categories.filter (fun c => c.owner_id == o)) ++ [newCat] := by
      rw [hst1]
      simp [List.filter_append, newCat]
    have hlen1 :
        ((add_category st o X).2.categories.filter (fun c => c.owner_id == o)).length ≤ 50 := by
      rw [hfilter1]
      simp only [List.length_append, List.length_cons, List.length_nil]
      omega
    have hget2 : get_categories (add_category st o X).2 o =
        (((add_category st o X).2.categories.filter
            (fun c => c.owner_id == o)).insertionSort catLeAsc).map (fun c => c.name) := by
      unfold get_categories
      rw [List.take_of_length_le (by rw [List.length_insertionSort]; exact hlen1)]
    have hmem : X ∈ get_categories (add_category st o X).2 o := by
      rw [hget2]
      refine List.mem_map.mpr ⟨newCat, ?_, rfl⟩
      refine (List.mem_insertionSort catLeAsc).mpr ?_
      rw [hfilter1]
      simp
    have hdup : ∀ st', X ∈ get_categories st' o → (add_category st' o X).1 = false := by
      intro st' hmem'
      unfold add_category
      simp [hmem']
    exact hdup _ hmem

def c6Store : Store :=
  { items := [], cache := [], nextId := 0, clock := 100,
    categories := (List.range 50).map
      (fun k => { owner_id := 1, name := "c", created_at := k }) }

/-- C6 counterexample: with 50 pre-existing categories the freshly created
category falls outside the 50-oldest window read by the duplicate check, so
the second call creates a duplicate and returns `true`, not `false`. -/
theorem add_category_twice_counterexample :
    (add_category c6Store 1 "X").1 = true ∧
      (add_category (add_category c6Store 1 "X").2 1 "X").1 = true := by
  constructor <;> decide

def w6st : Store := { items := [], categories := [], cache := [], nextId := 0, clock := 0 }

/-- C6 witness: the amended two-call behaviour at a fresh store. -/
theorem add_category_twice_witness :
    (add_category w6st 1 "X").1 = true ∧
      (add_category (add_category w6st 1 "X").2 1 "X").1 = false :=
  add_category_twice w6st 1 "X" (by decide) (by decide)

/-- The id and freshness invariant the cache maintains: distinct document
ids, all below the fresh-id counter. -/
def cacheInv (st : Store) : Prop :=
  (st.cache.map (fun e => e.id)).Nodup ∧ ∀ e ∈ st.cache, e.id < st.nextId

theorem overwrite_filter_singleton (bc : String) (docE : CacheEntry)
    (hdoc : docE.barcode = bc) :
    ∀ (l : List CacheEntry) (e : CacheEntry), (l.map (fun c => c.id)).Nodup →
      e ∈ l → e.barcode = bc → (l.filter (fun c => c.barcode == bc)).length ≤ 1 →
      ((l.map (fun c => if c.id == e.id then docE else c)).filter
          (fun c => c.barcode == bc)) = [docE]
  | [], e, _, hmem, _, _ => absurd hmem (List.not_mem_nil e)
  | c :: t, e, hnodup, hmem, hbc, hcnt => by
      rw [List.map_cons, List.nodup_cons] at hnodup
      rcases List.mem_cons.mp hmem with rfl | hmt
      · -- the head is the overwritten entry; no other entry shares its id
        have ht : t.map (fun c => if c.id == e.id then docE else c) = t := by
          have hpt : ∀ x ∈ t, (if x.id == e.id then docE else x) = x := by
            intro x hx
            have : x.id ≠ e.id := fun hxe =>
              hnodup.1 (hxe ▸ List.mem_map.mpr ⟨x, hx, rfl⟩)
            simp [this]
          simpa using List.map_congr_left hpt
        have hft : t.filter (fun c => c.barcode == bc) = [] := by
          have : (e :: t).filter (fun c => c.barcode == bc) =
              e :: t.filter (fun c => c.barcode == bc) := by
            rw [List.filter_cons_of_pos (by simp [hbc])]
          rw [this] at hcnt
          simp only [List.length_cons] at hcnt
          exact List.length_eq_zero.mp (by omega)
        simp only [List.map_cons, beq_self_eq_true, if_true, ht]
        rw [List.filter_cons_of_pos (by simp [hdoc]), hft]
      · -- the overwritten entry sits in the tail; the head stays untouched
        have hce : c.id ≠ e.id := fun hc =>
          hnodup.1 (hc ▸ List.mem_map.mpr ⟨e, hmt, rfl⟩)
        have hcbc : (c.barcode == bc) = false := by
          by_contra hc
          have hcbc' : (c.barcode == bc) = true := by
            cases hx : (c.barcode == bc) with
            | true => rfl
            | false => exact absurd hx hc
          have he : e ∈ t.filter (fun x => x.barcode == bc) :=
            List.mem_filter.mpr ⟨hmt, by simp [hbc]⟩
          have : (c :: t).filter (fun x => x.barcode == bc) =
              c :: t.filter (fun x => x.barcode == bc) :=
            List.filter_cons_of_pos hcbc'
          rw [this] at hcnt
          simp only [List.length_cons] at hcnt
          have : t.filter (fun x => x.barcode == bc) = [] :=
            List.length_eq_zero.mp (by omega)
          rw [this] at he
          exact absurd he (List.not_mem_nil e)
        have hcne : (if c.id == e.id then docE else c) = c := by simp [hce]
        rw [List.map_cons, hcne, List.filter_cons_of_neg (by simp [hcbc])]
        exact overwrite_filter_singleton bc docE hdoc t e hnodup.2 hmt hbc
          (by
            have : (c :: t).filter (fun x => x.barcode == bc) =
                t.filter (fun x => x.barcode == bc) :=
              List.filter_cons_of_neg (by simp [hcbc])
            rw [this] at hcnt
            exact hcnt)

theorem overwrite_ids (l : List CacheEntry) (eid : Nat) (docE : CacheEntry)
    (hdoc : docE.id = eid) :
    (l.map (fun c => if c.id == eid then docE else c)).map (fun c => c.id) =
      l.map (fun c => c.id) := by
  rw [List.map_map]
  refine List.map_congr_left ?_
  intro c _
  by_cases h : c.id == eid
  · simp only [Function.comp_apply, h, if_true, hdoc]
    exact (beq_iff_eq.mp h).symm
  · have hne : c.id ≠ eid := by simpa using h
    simp [Function.comp_apply, hne]

/-- One `cache_product` call: the single-entry-per-barcode shape for `bc`
is (re)established with the new name, and the id invariant is preserved. -/
theorem cache_product_upsert (st : Store) (bc nm b i : String) (r : Option String)
    (hinv : cacheInv st)
    (hcnt : (st.cache.filter (fun e => e.barcode == bc)).length ≤ 1) :
    cacheInv (cache_product st bc nm b i r).2 ∧
      ((cache_product st bc nm b i r).2.cache.filter
          (fun e => e.barcode == bc)).map (fun e => e.product_name) = [nm] ∧
      (cache_product st bc nm b i r).2.nextId ≥ st.nextId := by
  unfold cache_product
  cases hg : get_cached_product st bc with
  | none =>
      have hfe : st.cache.filter (fun e => e.barcode == bc) = [] :=
        List.head?_eq_none_iff.mp hg
      simp only
      refine ⟨⟨?_, ?_⟩, ?_, ?_⟩
      · rw [List.map_append]
        simp only [List.map_cons, List.map_nil]
        refine List.Nodup.append hinv.1 (by simp) ?_
        intro x hx hy
        rcases List.mem_map.mp hx with ⟨e, hmem, rfl⟩
        have := hinv.2 e hmem
        simp only [List.mem_singleton] at hy
        omega
      · intro e he
        rcases List.mem_append.mp he with h | h
        · exact Nat.lt_trans (hinv.2 e h) (Nat.lt_succ_self _)
        · simp only [List.mem_singleton] at h
          rw [h]
          exact Nat.lt_succ_self _
      · rw [List.filter_append, hfe]
        simp
      · exact Nat.le_succ _
  | some e =>
      have hemem' : e ∈ st.cache.filter (fun x => x.barcode == bc) := by
        have : st.cache.filter (fun x => x.barcode == bc) ≠ [] := by
          intro hc
          rw [get_cached_product, hc] at hg
          exact absurd hg (by simp)
        exact List.mem_of_mem_head? (by rw [← get_cached_product]; exact hg)
      have hemem : e ∈ st.cache := (List.mem_filter.mp hemem').1
      have hebc : e.barcode = bc := by
        have := (List.mem_filter.mp hemem').2
        exact beq_iff_eq.mp this
      simp only
      refine ⟨⟨?_, ?_⟩, ?_, ?_⟩
      · rw [overwrite_ids st.cache e.id
          { id := e.id, barcode := bc, product_name := nm, brand := b, image_url := i,
            raw := r, fetched_at := st.clock } rfl]
        exact hinv.1
      · intro x hx
        rcases List.mem_map.mp hx with ⟨c, hmem, rfl⟩
        by_cases h : c.id == e.id
        · simp only [h, if_true]
          exact hinv.2 e hemem
        · simp only [h, Bool.false_eq_true, if_false]
          exact hinv.2 c hmem
      · rw [overwrite_filter_singleton bc
          { id := e.id, barcode := bc, product_name := nm, brand := b, image_url := i,
            raw := r, fetched_at := st.clock } rfl st.cache e hinv.1 hemem hebc hcnt]
        simp
      · exact Nat.le_refl _

/-- C7: two successive `cache_product` writes for the same barcode leave
exactly one cache entry for it, carrying the second name. -/
theorem cache_product_overwrites (st : Store) (bc A B b1 i1 b2 i2 : String)
    (r1 r2 : Option String) (hinv : cacheInv st)
    (hcnt : (st.cache.filter (fun e => e.barcode == bc)).length ≤ 1) :
    (((cache_product (cache_product st bc A b1 i1 r1).2 bc B b2 i2 r2).2.cache.filter
        (fun e => e.barcode == bc)).map (fun e => e.product_name)) = [B] := by
  have h1 := cache_product_upsert st bc A b1 i1 r1 hinv hcnt
  have hcnt1 : ((cache_product st bc A b1 i1 r1).2.cache.filter
      (fun e => e.barcode == bc)).length ≤ 1 := by
    have := congrArg List.length h1.2.1
    simp only [List.length_map, List.length_cons, List.length_nil] at this
    omega
  exact (cache_product_upsert (cache_product st bc A b1 i1 r1).2 bc B b2 i2 r2
    h1.1 hcnt1).2.1

def w7st : Store := { items := [], categories := [], cache := [], nextId := 0, clock := 0 }

/-- C7 witness: the overwrite behaviour at an empty cache. -/
theorem cache_product_overwrites_witness :
    (((cache_product (cache_product w7st "0001" "A" "" "" none).2
        "0001" "B" "" "" none).2.cache.filter
        (fun e => e.barcode == "0001")).map (fun e => e.product_name)) = ["B"] :=
  cache_product_overwrites w7st "0001" "A" "B" "" "" "" "" none none
    (by constructor <;> simp [cacheInv, w7st]) (by decide)

theorem delete_items_by_barcode_eq (st : Store) (owner : Int) (bc : String)
    (cat : Option String) (limit : Nat) :
    delete_items_by_barcode st owner bc cat limit =
      (((find_items_by_barcode st owner bc cat).take limit).length,
       { st with
          items := st.items.filter (fun x =>
            ((find_items_by_barcode st owner bc cat).take limit).all
              (fun d => x.id != d.id)) }) := by
  unfold delete_items_by_barcode
  rw [delete_fold]
  simp only [Nat.zero_add]

/-- C4: `delete_items_by_barcode` deletes up to `limit` of the matching
items taken from the front of the ascending `added_at` order, returns the
count actually deleted (zero when nothing matches), and in the concrete
two-lot situation `t1 < t2` with `limit = 1` removes the older lot and
keeps the newer one. -/
theorem delete_items_oldest_first (st : Store) (owner : Int) (bc : String)
    (cat : Option String) (limit : Nat) :
    (delete_items_by_barcode st owner bc cat limit).1 =
        ((find_items_by_barcode st owner bc cat).take limit).length ∧
      (delete_items_by_barcode st owner bc cat limit).1 ≤ limit ∧
      (find_items_by_barcode st owner bc cat).Pairwise itemLeAsc ∧
      (∀ d ∈ (find_items_by_barcode st owner bc cat).take limit,
          d ∈ st.items ∧ barcodeMatch owner bc cat d = true) ∧
      (delete_items_by_barcode st owner bc cat limit).2.items =
        st.items.filter (fun x =>
          ((find_items_by_barcode st owner bc cat).take limit).all
            (fun d => x.id != d.id)) ∧
      (st.items.filter (barcodeMatch owner bc cat) = [] →
        (delete_items_by_barcode st owner bc cat limit).1 = 0) ∧
      (∀ x y, limit = 1 →
        (st.items.filter (barcodeMatch owner bc cat) = [x, y] ∨
          st.items.filter (barcodeMatch owner bc cat) = [y, x]) →
        x.added_at < y.added_at → x.id ≠ y.id →
        (delete_items_by_barcode st owner bc cat limit).1 = 1 ∧
          x ∉ (delete_items_by_barcode st owner bc cat limit).2.items ∧
          y ∈ (delete_items_by_barcode st owner bc cat limit).2.items) := by
  rw [delete_items_by_barcode_eq]
  refine ⟨rfl, ?_, ?_, ?_, rfl, ?_, ?_⟩
  · exact Nat.le_trans (Nat.le_of_eq rfl) (List.length_take_le limit _)
  · unfold find_items_by_barcode
    exact (List.sorted_insertionSort itemLeAsc _).sublist (List.take_sublist 50 _)
  · intro d hd
    have hd1 : d ∈ find_items_by_barcode st owner bc cat :=
      (List.take_sublist limit _).subset hd
    unfold find_items_by_barcode at hd1
    have hd2 : d ∈ (st.items.filter (barcodeMatch owner bc cat)).insertionSort itemLeAsc :=
      (List.take_sublist 50 _).subset hd1
    have hd3 : d ∈ st.items.filter (barcodeMatch owner bc cat) :=
      (List.mem_insertionSort itemLeAsc).mp hd2
    exact ⟨(List.mem_filter.mp hd3).1, (List.mem_filter.mp hd3).2⟩
  · intro hempty
    unfold find_items_by_barcode
    rw [hempty]
    simp
  · intro x y hlim hfil hlt hne
    subst hlim
    have hsorted : (st.items.filter (barcodeMatch owner bc cat)).insertionSort itemLeAsc =
        [x, y] := by
      rcases hfil with h | h
      · rw [h]
        simp only [List.insertionSort, List.orderedInsert]
        rw [if_pos (show itemLeAsc x y from Nat.le_of_lt hlt)]
      · rw [h]
        simp only [List.insertionSort, List.orderedInsert]
        rw [if_neg (show ¬itemLeAsc y x from fun hc => absurd hlt (Nat.not_lt.mpr hc))]
    have hfound : find_items_by_barcode st owner bc cat = [x, y] := by
      unfold find_items_by_barcode
      rw [hsorted]
      exact List.take_of_length_le (by simp)
    rw [hfound]
    have hymem : y ∈ st.items := by
      have : y ∈ st.items.filter (barcodeMatch owner bc cat) := by
        rcases hfil with h | h <;> rw [h] <;> simp
      exact (List.mem_filter.mp this).1
    refine ⟨rfl, ?_, ?_⟩
    · intro hc
      have := (List.mem_filter.mp hc).2
      simp at this
    · refine List.mem_filter.mpr ⟨hymem, ?_⟩
      simp only [List.take, List.all_cons, List.all_nil, Bool.and_true]
      simpa using fun hc => hne hc.symm

def w4x : Item :=
  { id := 0, owner_id := 1, barcode := "b", product_name := "n", category := "P",
    quantity := 1, added_at := 0, expiry_date := none, product_info := none,
    verified := false }

def w4y : Item :=
  { id := 1, owner_id := 1, barcode := "b", product_name := "n", category := "P",
    quantity := 1, added_at := 1, expiry_date := none, product_info := none,
    verified := false }

def w4st : Store := { items := [w4x, w4y], categories := [], cache := [], nextId := 2, clock := 2 }

/-- C4 witness: two lots added at times 0 < 1; `limit = 1` removes the
older lot and keeps the newer one. -/
theorem delete_items_oldest_first_witness :
    (delete_items_by_barcode w4st 1 "b" (some "P") 1).1 = 1 ∧
      w4x ∉ (delete_items_by_barcode w4st 1 "b" (some "P") 1).2.items ∧
      w4y ∈ (delete_items_by_barcode w4st 1 "b" (some "P") 1).2.items :=
  (delete_items_oldest_first w4st 1 "b" (some "P") 1).2.2.2.2.2.2 w4x w4y rfl
    (Or.inl (by decide)) (by decide) (by decide)

/-- The remove-mode batch loop written as structural recursion: each
barcode is handled from the state left by its predecessors. -/
def run_remove (owner : Int) (st : Store) (cat : String) : List Scan → Store × List String
  | [] => (st, [])
  | s :: ss =>
      let r := process_remove_one st owner cat s
      let rest := run_remove owner r.1 cat ss
      (rest.1, r.2 :: rest.2)

theorem run_batch_remove_acc (lookup : String → Option LookupResult) (owner : Int)
    (cat : String) :
    ∀ (scans : List Scan) (st : Store) (acc : List String),
      scans.foldl
        (fun acc' s =>
          let r := process_remove_one acc'.1 owner cat s
          (r.1, acc'.2 ++ [r.2]))
        (st, acc) =
        ((run_remove owner st cat scans).1, acc ++ (run_remove owner st cat scans).2)
  | [], st, acc => by simp [run_remove]
  | s :: ss, st, acc => by
      rw [List.foldl_cons]
      rw [run_batch_remove_acc lookup owner cat ss (process_remove_one st owner cat s).1
        (acc ++ [(process_remove_one st owner cat s).2])]
      simp [run_remove]

theorem run_batch_remove_eq (lookup : String → Option LookupResult) (owner : Int)
    (st : Store) (scans : List Scan) (cat : String) :
    run_batch lookup owner st scans "remove" cat = run_remove owner st cat scans := by
  unfold run_batch
  rw [if_pos (by rfl)]
  rw [run_batch_remove_acc lookup owner cat scans st []]
  simp

theorem run_remove_length (owner : Int) (cat : String) :
    ∀ (scans : List Scan) (st : Store),
      (run_remove owner st cat scans).2.length = scans.length
  | [], _ => rfl
  | s :: ss, st => by
      simp only [run_remove, List.length_cons]
      rw [run_remove_length owner cat ss]

/-- C3: remove-mode batches are independent per barcode — the loop
threads the store through every scan without rollback, each step consumes
at most the single oldest `(owner, barcode, category)` match, a miss
yields a per-barcode not-found line with the store untouched, and every
scan of the batch produces exactly one result line. -/
theorem remove_batch_independent (lookup : String → Option LookupResult) (owner : Int)
    (st : Store) (cat : String) :
    (run_batch lookup owner st [] "remove" cat = (st, [])) ∧
      (∀ s ss, run_batch lookup owner st (s :: ss) "remove" cat =
        ((run_batch lookup owner (process_remove_one st owner cat s).1 ss "remove" cat).1,
          (process_remove_one st owner cat s).2 ::
            (run_batch lookup owner (process_remove_one st owner cat s).1 ss "remove" cat).2)) ∧
      (∀ s : Scan, find_items_by_barcode st owner s.code (some cat) = [] →
        process_remove_one st owner cat s = (st, "❌ Not found: `" ++ s.code ++ "`")) ∧
      (∀ (s : Scan) (it : Item) (rest : List Item),
        find_items_by_barcode st owner s.code (some cat) = it :: rest →
        process_remove_one st owner cat s =
          ({ st with items := st.items.filter (fun x => x.id != it.id) },
           "🗑️ Removed: `" ++ s.code ++ "`")) ∧
      (∀ scans, (run_batch lookup owner st scans "remove" cat).2.length = scans.length) := by
  refine ⟨?_, ?_, ?_, ?_, ?_⟩
  · rw [run_batch_remove_eq]
    rfl
  · intro s ss
    rw [run_batch_remove_eq, run_batch_remove_eq]
    simp [run_remove]
  · intro s hempty
    simp only [process_remove_one, delete_items_by_barcode_eq, hempty]
    simp
  · intro s it rest hfound
    simp only [process_remove_one, delete_items_by_barcode_eq, hfound]
    simp [List.take_cons, List.take_nil]
  · intro scans
    rw [run_batch_remove_eq]
    exact run_remove_length owner cat scans st

/-- C8: the review queue contains only the owner's unverified items,
newest first, at most one row per barcode, each row being the most recent
unverified lot of its barcode. -/
theorem get_unverified_items_dedup (st : Store) (owner : Int) (size : Nat) :
    (∀ x ∈ get_unverified_items st owner size, x.owner_id = owner ∧ x.verified = false) ∧
      (get_unverified_items st owner size).Pairwise itemLeDesc ∧
      (get_unverified_items st owner size).Pairwise (fun a b => a.barcode ≠ b.barcode) ∧
      (∀ x ∈ get_unverified_items st owner size, ∀ y ∈ st.items,
        y.owner_id = owner → y.verified = false → y.barcode = x.barcode →
        y.added_at ≤ x.added_at) := by
  unfold get_unverified_items
  refine ⟨?_, ?_, ?_, ?_⟩
  · intro x hx
    have h1 : x ∈ collapseByBarcode
        ((st.items.filter (fun it => it.owner_id == owner && it.verified == false)).insertionSort
          itemLeDesc) := (List.take_sublist size _).subset hx
    have h2 := (collapse_sublist _).subset h1
    have h3 := (List.mem_insertionSort itemLeDesc).mp h2
    have h4 := List.of_mem_filter h3
    simp only [Bool.and_eq_true, beq_iff_eq] at h4
    exact ⟨h4.1, h4.2⟩
  · exact ((List.sorted_insertionSort itemLeDesc _).sublist (collapse_sublist _)).sublist
      (List.take_sublist size _)
  · exact (collapse_pairwise_barcode _).sublist (List.take_sublist size _)
  · intro x hx y hy hyo hyv hybc
    have h1 : x ∈ collapseByBarcode
        ((st.items.filter (fun it => it.owner_id == owner && it.verified == false)).insertionSort
          itemLeDesc) := (List.take_sublist size _).subset hx
    have hymem : y ∈ (st.items.filter
        (fun it => it.owner_id == owner && it.verified == false)).insertionSort itemLeDesc := by
      refine (List.mem_insertionSort itemLeDesc).mpr ?_
      exact List.mem_filter.mpr ⟨hy, by simp [hyo, hyv]⟩
    exact collapse_first_wins _ (List.sorted_insertionSort itemLeDesc _) x h1 y hymem hybc

def w8a : Item :=
  { id := 0, owner_id := 1, barcode := "b", product_name := "n", category := "P",
    quantity := 1, added_at := 0, expiry_date := none, product_info := none,
    verified := false }

def w8b : Item :=
  { id := 1, owner_id := 1, barcode := "b", product_name := "n", category := "P",
    quantity := 1, added_at := 5, expiry_date := none, product_info := none,
    verified := false }

def w8st : Store := { items := [w8a, w8b], categories := [], cache := [], nextId := 2, clock := 6 }

/-- C8 witness: with two unverified lots of one barcode, the returned row
for that barcode is unverified and dominates the older lot's timestamp. -/
theorem get_unverified_items_dedup_witness :
    w8b.owner_id = 1 ∧ w8b.verified = false ∧ w8a.added_at ≤ w8b.added_at :=
  have hx : w8b ∈ get_unverified_items w8st 1 20 := by decide
  ⟨((get_unverified_items_dedup w8st 1 20).1 w8b hx).1,
   ((get_unverified_items_dedup w8st 1 20).1 w8b hx).2,
   (get_unverified_items_dedup w8st 1 20).2.2.2 w8b hx w8a (by decide) rfl rfl rfl⟩

/-- C3 witness: at a concrete store, a missing barcode yields the
not-found line with the store untouched, and a two-scan batch yields two
result lines. -/
theorem remove_batch_independent_witness :
    process_remove_one w4st 1 "P" { code := "z" } = (w4st, "❌ Not found: `z`") ∧
      (run_batch (fun _ => none) 1 w4st
        [{ code := "b" }, { code := "z" }] "remove" "P").2.length = 2 :=
  ⟨(remove_batch_independent (fun _ => none) 1 w4st "P").2.2.1 { code := "z" } (by decide),
   (remove_batch_independent (fun _ => none) 1 w4st "P").2.2.2.2
     [{ code := "b" }, { code := "z" }]⟩

/-- C2 (amended): with a non-empty new name and at most 50 matching lots
(the `find` window), `verify_items_by_barcode` sets `verified := true` and
the new name on exactly the matching items of that owner and barcode —
any category — and returns their count; all other items are untouched. -/
theorem verify_items_by_barcode_amended (st : Store) (O : Int) (bc X : String)
    (hX : X ≠ "")
    (hnodup : (st.items.map (fun it => it.id)).Nodup)
    (hcnt : (st.items.filter (barcodeMatch O bc none)).length ≤ 50) :
    (verify_items_by_barcode st O bc (some X)).1 =
        (st.items.filter (barcodeMatch O bc none)).length ∧
      (verify_items_by_barcode st O bc (some X)).2.items =
        st.items.map (fun it =>
          if barcodeMatch O bc none it then
            { it with verified := true, product_name := X }
          else it) := by
  have hfound : find_items_by_barcode st O bc none =
      (st.items.filter (barcodeMatch O bc none)).insertionSort itemLeAsc := by
    unfold find_items_by_barcode
    exact List.take_of_length_le (by rw [List.length_insertionSort]; exact hcnt)
  have hlen : (find_items_by_barcode st O bc none).length =
      (st.items.filter (barcodeMatch O bc none)).length := by
    rw [hfound, List.length_insertionSort]
  have hmemf : ∀ u, u ∈ find_items_by_barcode st O bc none ↔
      u ∈ st.items.filter (barcodeMatch O bc none) := by
    intro u
    rw [hfound]
    exact List.mem_insertionSort itemLeAsc
  have hrun : verify_items_by_barcode st O bc (some X) =
      ((find_items_by_barcode st O bc none).length,
       apply_updates st ((find_items_by_barcode st O bc none).map (fun it => it.id))
         (verifyFields (some X))) := by
    unfold verify_items_by_barcode
    rw [count_update_fold]
    simp
  have hXbeq : (X == "") = false := by
    simp only [beq_eq_false_iff_ne, ne_eq]
    exact hX
  have hpatch : ∀ it : Item, applyPatch (verifyFields (some X)) it =
      { it with verified := true, product_name := X } := by
    intro it
    simp [applyPatch, verifyFields, hXbeq]
  constructor
  · rw [hrun]
    exact hlen
  · rw [hrun]
    simp only [apply_updates_items]
    refine List.map_congr_left ?_
    intro it hit
    by_cases hm : barcodeMatch O bc none it = true
    · have hmem : it ∈ find_items_by_barcode st O bc none :=
        (hmemf it).mpr (List.mem_filter.mpr ⟨hit, hm⟩)
      have hany : ((find_items_by_barcode st O bc none).map (fun u => u.id)).any
          (fun i => it.id == i) = true :=
        List.any_eq_true.mpr ⟨it.id, List.mem_map.mpr ⟨it, hmem, rfl⟩, by simp⟩
      rw [hany, if_pos rfl, hpatch, if_pos hm]
    · have hany : ((find_items_by_barcode st O bc none).map (fun u => u.id)).any
          (fun i => it.id == i) = false := by
        by_contra hc
        have hany' : ((find_items_by_barcode st O bc none).map (fun u => u.id)).any
            (fun i => it.id == i) = true := by
          cases hx : ((find_items_by_barcode st O bc none).map (fun u => u.id)).any
              (fun i => it.id == i) with
          | true => rfl
          | false => exact absurd hx hc
        rcases List.any_eq_true.mp hany' with ⟨i, hi, hbeq⟩
        rcases List.mem_map.mp hi with ⟨u, humem, rfl⟩
        have hufil := (hmemf u).mp humem
        have humem' : u ∈ st.items := (List.mem_filter.mp hufil).1
        have hueq : u = it :=
          List.inj_on_of_nodup_map hnodup humem' hit (beq_iff_eq.mp hbeq).symm
        have := (List.mem_filter.mp hufil).2
        rw [hueq] at this
        exact absurd this (by simp [hm])
      rw [hany]
      simp [hm]

def c2Item (k : Nat) : Item :=
  { id := k, owner_id := 1, barcode := "b", product_name := "n", category := "P",
    quantity := 1, added_at := k, expiry_date := none, product_info := none,
    verified := false }

def c2Store : Store :=
  { items := (List.range 51).map c2Item, categories := [], cache := [], nextId := 60,
    clock := 60 }

set_option maxRecDepth 4000 in
/-- C2 counterexample: 51 lots of one barcode — the verify sweep reads
only the 50-item `find` window, so one matching lot stays unverified and
the returned count is 50, not the number of matching items (51). -/
theorem verify_items_by_barcode_counterexample :
    (c2Store.items.filter (barcodeMatch 1 "b" none)).length = 51 ∧
      (verify_items_by_barcode c2Store 1 "b" (some "X")).1 = 50 ∧
      (verify_items_by_barcode c2Store 1 "b" (some "X")).2.items.any
        (fun it => it.owner_id == 1 && it.barcode == "b" && it.verified == false) = true := by
  refine ⟨by decide, by decide, by decide⟩

/-- C2 witness: the amended statement at a two-lot store. -/
theorem verify_items_by_barcode_amended_witness :
    (verify_items_by_barcode w4st 1 "b" (some "X")).1 = 2 := by
  have h := verify_items_by_barcode_amended w4st 1 "b" "X" (by decide) (by decide) (by decide)
  rw [h.1]
  decide

/-- C10: the review barcode-fix flow changes, on every re-targeted item,
only the `barcode` field — plus `product_name` when the new barcode has a
cache hit with a truthy name — and preserves every other field; in
particular the `verified` flag of every stored item (re-targeted or not)
is exactly what it was before. -/
theorem review_fixcode_frame (st : Store) (owner : Int) (oldBc newBc : String)
    (hnew : newBc ≠ "") (hold : oldBc ≠ "") :
    (find_items_by_barcode st owner oldBc none = [] →
      review_received_barcode st owner oldBc newBc = (0, st)) ∧
      (find_items_by_barcode st owner oldBc none ≠ [] →
        (review_received_barcode st owner oldBc newBc).1 =
            (find_items_by_barcode st owner oldBc none).length ∧
          (review_received_barcode st owner oldBc newBc).2.items =
            st.items.map (fun it =>
              if ((find_items_by_barcode st owner oldBc none).map (fun u => u.id)).any
                  (fun i => it.id == i) then
                { it with
                  barcode := newBc
                  product_name :=
                    (match get_cached_product st newBc with
                     | some c => if c.product_name == "" then none else some c.product_name
                     | none => none).getD it.product_name }
              else it) ∧
          (∀ i, ((review_received_barcode st owner oldBc newBc).2.items.get? i).map
              (fun it => it.verified) = (st.items.get? i).map (fun it => it.verified))) := by
  have hnewbeq : (newBc == "") = false := by
    simp only [beq_eq_false_iff_ne, ne_eq]; exact hnew
  have holdbeq : (oldBc == "") = false := by
    simp only [beq_eq_false_iff_ne, ne_eq]; exact hold
  have hpatch : ∀ it : Item,
      applyPatch (fixcodeFields newBc
        ((get_cached_product st newBc).map (fun c => c.product_name))) it =
        { it with
          barcode := newBc
          product_name :=
            (match get_cached_product st newBc with
             | some c => if c.product_name == "" then none else some c.product_name
             | none => none).getD it.product_name } := by
    intro it
    cases hc : get_cached_product st newBc with
    | none => simp [applyPatch, fixcodeFields]
    | some c =>
        by_cases he : c.product_name == ""
        · simp [applyPatch, fixcodeFields, he]
        · simp [applyPatch, fixcodeFields, he]
  constructor
  · intro hempty
    unfold review_received_barcode
    rw [if_neg (by simp [hnewbeq, holdbeq])]
    simp only [hempty]
    rw [if_pos (by rfl)]
  · intro hne
    have hrun : review_received_barcode st owner oldBc newBc =
        ((find_items_by_barcode st owner oldBc none).length,
         apply_updates st ((find_items_by_barcode st owner oldBc none).map (fun it => it.id))
           (fixcodeFields newBc
             ((get_cached_product st newBc).map (fun c => c.product_name)))) := by
      unfold review_received_barcode
      rw [if_neg (by simp [hnewbeq, holdbeq])]
      rw [if_neg (by simpa [List.isEmpty_iff] using hne)]
      rw [count_update_fold]
      simp
    refine ⟨by rw [hrun], ?_, ?_⟩
    · rw [hrun]
      simp only [apply_updates_items]
      refine List.map_congr_left ?_
      intro it _
      rw [hpatch]
    · intro i
      rw [hrun]
      simp only [apply_updates_items, List.get?_map]
      cases hg : st.items.get? i with
      | none => rfl
      | some it =>
          simp only [Option.map_some']
          refine congrArg some ?_
          split <;> rfl

def w10it : Item :=
  { id := 0, owner_id := 1, barcode := "old", product_name := "Unknown (old)",
    category := "P", quantity := 1, added_at := 0, expiry_date := none,
    product_info := none, verified := false }

def w10cache : CacheEntry :=
  { id := 5, barcode := "new", product_name := "Milk", brand := "", image_url := "",
    raw := none, fetched_at := 0 }

def w10st : Store :=
  { items := [w10it], categories := [], cache := [w10cache], nextId := 6, clock := 1 }

/-- C10 witness: one unverified item re-targeted from `old` to `new` keeps
`verified = false`; exactly one item was updated. -/
theorem review_fixcode_frame_witness :
    (review_received_barcode w10st 1 "old" "new").1 = 1 ∧
      ((review_received_barcode w10st 1 "old" "new").2.items.get? 0).map
        (fun it => it.verified) = some false := by
  have h := (review_fixcode_frame w10st 1 "old" "new" (by decide) (by decide)).2 (by decide)
  refine ⟨by rw [h.1]; decide, ?_⟩
  rw [h.2.2 0]
  decide

/-- C1: one add-mode scan step — a blank barcode is skipped with no
insert; a cache hit inserts exactly one item with quantity 1, the cached
name and `verified = true` without consulting the external catalog (the
result does not depend on the `lookup` function); a cache miss with a
successful lookup inserts one unverified quantity-1 item with the
looked-up name and writes the result into the cache; a failed lookup
inserts one unverified quantity-1 item named `Unknown (<barcode>)` and
leaves the cache untouched. -/
theorem process_add_one_resolution (lookup : String → Option LookupResult) (st : Store)
    (owner : Int) (cat : String) (scan : Scan) :
    (scan.code = "" → process_add_one lookup st owner cat scan = (st, none)) ∧
      (scan.code ≠ "" → ∀ c, get_cached_product st scan.code = some c →
        (process_add_one lookup st owner cat scan).1.items =
            st.items ++ [{
              id := st.nextId
              owner_id := owner
              barcode := scan.code
              product_name := c.product_name
              category := cat
              quantity := 1
              added_at := st.clock
              expiry_date := none
              product_info := none
              verified := true }] ∧
          (process_add_one lookup st owner cat scan).1.cache = st.cache ∧
          ∀ lookup2, process_add_one lookup2 st owner cat scan =
            process_add_one lookup st owner cat scan) ∧
      (scan.code ≠ "" → get_cached_product st scan.code = none →
        ∀ r, lookup scan.code = some r →
        (∃ it, (process_add_one lookup st owner cat scan).1.items = st.items ++ [it] ∧
          it.barcode = scan.code ∧ it.product_name = r.product_name ∧ it.quantity = 1 ∧
          it.owner_id = owner ∧ it.category = cat ∧ it.verified = false) ∧
        (∃ e, get_cached_product (process_add_one lookup st owner cat scan).1 scan.code =
            some e ∧ e.product_name = r.product_name)) ∧
      (scan.code ≠ "" → get_cached_product st scan.code = none → lookup scan.code = none →
        (∃ it, (process_add_one lookup st owner cat scan).1.items = st.items ++ [it] ∧
          it.barcode = scan.code ∧ it.product_name = "Unknown (" ++ scan.code ++ ")" ∧
          it.quantity = 1 ∧ it.owner_id = owner ∧ it.category = cat ∧ it.verified = false) ∧
        (process_add_one lookup st owner cat scan).1.cache = st.cache) := by
  refine ⟨?_, ?_, ?_, ?_⟩
  · intro hblank
    simp [process_add_one, hblank]
  · intro hbc c hc
    have hbcbeq : (scan.code == "") = false := by
      simp only [beq_eq_false_iff_ne, ne_eq]; exact hbc
    refine ⟨?_, ?_, ?_⟩
    · simp [process_add_one, hbcbeq, hc, add_item]
    · simp [process_add_one, hbcbeq, hc, add_item]
    · intro lookup2
      simp [process_add_one, hbcbeq, hc]
  · intro hbc hc r hr
    have hbcbeq : (scan.code == "") = false := by
      simp only [beq_eq_false_iff_ne, ne_eq]; exact hbc
    have hcp : (cache_product st scan.code r.product_name r.brand r.image_url r.raw).2 =
        { st with
            cache := st.cache ++
              [{ id := st.nextId, barcode := scan.code, product_name := r.product_name,
                 brand := r.brand, image_url := r.image_url, raw := r.raw,
                 fetched_at := st.clock }]
            nextId := st.nextId + 1
            clock := st.clock + 1 } := by
      simp [cache_product, hc]
    have hres : process_add_one lookup st owner cat scan =
        ((add_item (cache_product st scan.code r.product_name r.brand r.image_url r.raw).2
            owner scan.code r.product_name cat 1 none r.raw false).1,
         some ("❓ *" ++ r.product_name ++ "*")) := by
      simp [process_add_one, hbcbeq, hc, hr]
    constructor
    · refine ⟨{
        id := st.nextId + 1
        owner_id := owner
        barcode := scan.code
        product_name := r.product_name
        category := cat
        quantity := 1
        added_at := st.clock + 1
        expiry_date := none
        product_info := r.raw
        verified := false }, ?_, rfl, rfl, rfl, rfl, rfl, rfl⟩
      rw [hres, hcp]
      simp [add_item]
    · refine ⟨{
        id := st.nextId
        barcode := scan.code
        product_name := r.product_name
        brand := r.brand
        image_url := r.image_url
        raw := r.raw
        fetched_at := st.clock }, ?_, rfl⟩
      rw [hres]
      have hcache1 : (add_item (cache_product st scan.code r.product_name r.brand
          r.image_url r.raw).2 owner scan.code r.product_name cat 1 none r.raw
          false).1.cache =
          (cache_product st scan.code r.product_name r.brand r.image_url r.raw).2.cache := by
        simp [add_item]
      unfold get_cached_product
      rw [hcache1, hcp]
      have hfe : st.cache.filter (fun e => e.barcode == scan.code) = [] :=
        List.head?_eq_none_iff.mp hc
      simp only [List.filter_append, hfe]
      simp
  · intro hbc hc hr
    have hbcbeq : (scan.code == "") = false := by
      simp only [beq_eq_false_iff_ne, ne_eq]; exact hbc
    constructor
    · refine ⟨{
        id := st.nextId
        owner_id := owner
        barcode := scan.code
        product_name := "Unknown (" ++ scan.code ++ ")"
        category := cat
        quantity := 1
        added_at := st.clock
        expiry_date := none
        product_info := none
        verified := false }, ?_, rfl, rfl, rfl, rfl, rfl, rfl⟩
      simp [process_add_one, hbcbeq, hc, hr, add_item]
    · simp [process_add_one, hbcbeq, hc, hr, add_item]

def w1cache : CacheEntry :=
  { id := 0, barcode := "0002", product_name := "Eggs", brand := "", image_url := "",
    raw := none, fetched_at := 0 }

def w1st : Store :=
  { items := [], categories := [], cache := [w1cache], nextId := 1, clock := 1 }

/-- C1 witness: against a store whose cache already knows `0002`, a scan of
`0002` inserts one verified item named `Eggs` without touching the cache,
independently of the external catalog. -/
theorem process_add_one_resolution_witness :
    (process_add_one (fun _ => none) w1st 7 "Pantry" { code := "0002" }).1.items =
        w1st.items ++ [{
          id := 1
          owner_id := 7
          barcode := "0002"
          product_name := "Eggs"
          category := "Pantry"
          quantity := 1
          added_at := 1
          expiry_date := none
          product_info := none
          verified := true }] ∧
      (process_add_one (fun _ => none) w1st 7 "Pantry" { code := "0002" }).1.cache =
        w1st.cache ∧
      process_add_one (fun _ =>
          some { product_name := "Hijack", brand := "", image_url := "", raw := none })
          w1st 7 "Pantry" { code := "0002" } =
        process_add_one (fun _ => none) w1st 7 "Pantry" { code := "0002" } := by
  have h := (process_add_one_resolution (fun _ => none) w1st 7 "Pantry"
    { code := "0002" }).2.1 (by decide) w1cache (by decide)
  exact ⟨h.1, h.2.1, h.2.2 _⟩

/-- C9: the deep-link owner override never survives one
`webapp_select_category` invocation: starting from a session without an
override (the only reachable entry state), the override is erased on every
exit path — cancel, successful processing, and the `finally` path taken
when processing raises — so owner resolution for any later batch in this
session yields the acting user's own owner id; and when a deep-link target
`g` is present the one processed batch itself runs with owner `g`.
Sessions of other users hold distinct `Session` values and are never
touched by this handler. -/
theorem scan_owner_override_scoped (lookup : String → Option LookupResult) (raises : Bool)
    (sess : Session) (own : Int) (st : Store) (cat : String)
    (hsess : sess.override_owner = none) :
    ((webapp_select_category lookup raises sess own st cat).1.override_owner = none) ∧
      (resolved_owner (webapp_select_category lookup raises sess own st cat).1 own = own) ∧
      (∀ scans mode c st', process_scan_batch lookup
          (webapp_select_category lookup raises sess own st cat).1 own st' scans mode c =
          run_batch lookup own st' scans mode c) ∧
      (cat ≠ "__cancel__" → raises = false →
        ∀ g, sess.scan_target_chat = some g → g ≠ 0 →
        (webapp_select_category lookup raises sess own st cat).2 =
          Outcome.ok
            (run_batch lookup g st (sess.scan_scans.getD []) (sess.scan_mode.getD "add") cat).1
            (run_batch lookup g st (sess.scan_scans.getD []) (sess.scan_mode.getD "add")
              cat).2) := by
  by_cases hc : (cat == "__cancel__") = true
  · have hcat : cat = "__cancel__" := beq_iff_eq.mp hc
    have hres : webapp_select_category lookup raises sess own st cat =
        ({ sess with scan_scans := none, scan_mode := none }, Outcome.cancelled) := by
      simp [webapp_select_category, hc]
    refine ⟨?_, ?_, ?_, ?_⟩
    · rw [hres]
      exact hsess
    · rw [hres]
      simp [resolved_owner, hsess]
    · intro scans mode c st'
      rw [hres]
      simp [process_scan_batch, resolved_owner, hsess]
    · intro hcat' _ _ _ _
      exact absurd hcat hcat'
  · have hover : (webapp_select_category lookup raises sess own st cat).1.override_owner =
        none := by
      simp only [webapp_select_category]
      rw [if_neg hc]
    refine ⟨hover, ?_, ?_, ?_⟩
    · simp [resolved_owner, hover]
    · intro scans mode c st'
      simp [process_scan_batch, resolved_owner, hover]
    · intro _ hraise g hg hgne
      have hgbne : (g != 0) = true := bne_iff_ne.mpr hgne
      subst hraise
      simp only [webapp_select_category]
      rw [if_neg hc]
      simp only [hg, hgbne, if_true, Bool.false_eq_true, if_false]
      simp [process_scan_batch, resolved_owner, hgbne]

def w9sess : Session :=
  { scan_scans := some [{ code := "b" }], scan_mode := some "remove",
    scan_target_chat := some (-42), override_owner := none }

/-- C9 witness: a deep-link batch targeting owner `-42` runs under that
owner exactly once, and the session it leaves behind resolves back to the
acting user's own owner id. -/
theorem scan_owner_override_scoped_witness :
    ((webapp_select_category (fun _ => none) false w9sess 7 w4st "P").1.override_owner =
        none) ∧
      (resolved_owner (webapp_select_category (fun _ => none) false w9sess 7 w4st "P").1 7 =
        7) ∧
      ((webapp_select_category (fun _ => none) false w9sess 7 w4st "P").2 =
        Outcome.ok (run_batch (fun _ => none) (-42) w4st [{ code := "b" }] "remove" "P").1
          (run_batch (fun _ => none) (-42) w4st [{ code := "b" }] "remove" "P").2) := by
  have h := scan_owner_override_scoped (fun _ => none) false w9sess 7 w4st "P" rfl
  exact ⟨h.1, h.2.1, h.2.2.2 (by decide) rfl (-42) rfl (by decide)⟩

end Pantry
